import Mathlib

/-!
Verification of the session/ranking engine of the openlap repository
(src/app/rms/session.ts and src/app/rms/rms.page.ts), via a shallow
embedding of the relevant JavaScript functions.

JavaScript numbers are modelled by `JsNum`: a rational, positive or
negative infinity, or NaN.  The `undefined` value read from array holes
behaves exactly like NaN in every operation this code performs on it
(arithmetic yields NaN, comparisons are false, it is falsy), so holes
are modelled as `JsNum.nan`.
-/

namespace Openlap

/-- Model of a JavaScript number: finite (rational), ±Infinity, or NaN.
`undefined` read out of array holes is identified with `nan`, which is
an exact model for the operations used by this code base. -/
inductive JsNum where
  | num (q : ℤ)
  | posInf
  | negInf
  | nan
deriving DecidableEq, Repr

namespace JsNum

/-- JavaScript isNaN. -/
def isNaN : JsNum → Bool
  | nan => true
  | _ => false

/-- JavaScript falsiness of a number: 0 and NaN are falsy. -/
def falsy : JsNum → Bool
  | num q => q == 0
  | nan => true
  | _ => false

/-- JavaScript addition. -/
def add : JsNum → JsNum → JsNum
  | nan, _ => nan
  | num _, nan => nan
  | posInf, nan => nan
  | negInf, nan => nan
  | num a, num b => num (a + b)
  | num _, posInf => posInf
  | num _, negInf => negInf
  | posInf, num _ => posInf
  | negInf, num _ => negInf
  | posInf, posInf => posInf
  | negInf, negInf => negInf
  | posInf, negInf => nan
  | negInf, posInf => nan

/-- JavaScript subtraction. -/
def sub : JsNum → JsNum → JsNum
  | nan, _ => nan
  | num _, nan => nan
  | posInf, nan => nan
  | negInf, nan => nan
  | num a, num b => num (a - b)
  | num _, posInf => negInf
  | num _, negInf => posInf
  | posInf, num _ => posInf
  | negInf, num _ => negInf
  | posInf, posInf => nan
  | negInf, negInf => nan
  | posInf, negInf => posInf
  | negInf, posInf => negInf

/-- JavaScript strict `<` comparison (false whenever NaN is involved). -/
def ltb : JsNum → JsNum → Bool
  | nan, _ => false
  | num _, nan => false
  | posInf, nan => false
  | negInf, nan => false
  | num a, num b => decide (a < b)
  | num _, posInf => true
  | num _, negInf => false
  | posInf, num _ => false
  | negInf, num _ => true
  | posInf, posInf => false
  | negInf, negInf => false
  | posInf, negInf => false
  | negInf, posInf => true

/-- The value is a strictly negative number (used for the sign of a
sort comparator result; NaN is treated as zero by Array.prototype.sort). -/
def isNeg : JsNum → Bool
  | num q => decide (q < 0)
  | negInf => true
  | _ => false

/-- The value is a strictly positive number (used for the sign of a
sort comparator result; NaN is treated as zero by Array.prototype.sort). -/
def isPos : JsNum → Bool
  | num q => decide (0 < q)
  | posInf => true
  | _ => false

/-- The value is finite or NaN (every time value the hardware pipeline
actually produces satisfies this). -/
def finOrNan : JsNum → Bool
  | num _ => true
  | nan => true
  | _ => false

end JsNum

/-- JavaScript `a || b` on numbers: returns `b` when `a` is falsy. -/
def jsOr (a b : JsNum) : JsNum := if a.falsy then b else a

/-- JavaScript Math.min on two arguments (NaN-propagating). -/
def jsMin : JsNum → JsNum → JsNum
  | JsNum.nan, _ => JsNum.nan
  | JsNum.num _, JsNum.nan => JsNum.nan
  | JsNum.posInf, JsNum.nan => JsNum.nan
  | JsNum.negInf, JsNum.nan => JsNum.nan
  | a, b => if a.ltb b then a else b

/-- Read of a JavaScript array at an index: holes and out-of-range reads
give `undefined`, modelled as NaN (see the module comment). -/
def jsGet (l : List JsNum) (i : ℕ) : JsNum := l.getD i JsNum.nan

/-- JavaScript array element assignment `l[i] = v`: assigning past the
current length fills the gap with holes (modelled as NaN) and extends
the length to `i + 1`. -/
def setPad (l : List JsNum) (i : ℕ) (v : JsNum) : List JsNum :=
  (l ++ List.replicate (i + 1 - l.length) JsNum.nan).set i v

/-- The Entry record published per lane by `createGrid`
(session.ts, lines 350-362). -/
structure Entry where
  id : ℕ
  time : JsNum
  laps : ℕ
  last : List JsNum
  best : List JsNum
  times : List (List JsNum)
  fuel : JsNum
  pit : Bool
  pits : ℕ
  sector : ℕ
  finished : Bool
deriving DecidableEq, Repr

/-- `numCompare` from session.ts lines 33-42: subtract, and if the result
is NaN order NaN after every number (two NaNs tie). -/
def numCompare (lhs rhs : JsNum) : JsNum :=
  let r := lhs.sub rhs
  if r.isNaN = false then r
  else if lhs.isNaN then (if rhs.isNaN then JsNum.num 0 else JsNum.num 1)
  else JsNum.num (-1)

/-- `timeCompare` from session.ts lines 44-46: ascending by best lap time,
missing (falsy) best treated as Infinity. -/
def timeCompare (lhs rhs : Entry) : JsNum :=
  (jsOr (jsGet lhs.best 0) JsNum.posInf).sub (jsOr (jsGet rhs.best 0) JsNum.posInf)

/-- `raceCompare` from session.ts lines 48-50: descending laps, then
`numCompare` on the current times, then ascending lane id, composed with
JavaScript `||` (which skips a zero result). -/
def raceCompare (lhs rhs : Entry) : JsNum :=
  jsOr (jsOr (JsNum.num ((rhs.laps : ℤ) - (lhs.laps : ℤ))) (numCompare lhs.time rhs.time))
    (JsNum.num ((lhs.id : ℤ) - (rhs.id : ℤ)))

/-- The three race modes of `RaceOptions`. -/
inductive Mode where
  | practice
  | qualifying
  | race
deriving DecidableEq, Repr

/-- The `COMPARE` table from session.ts lines 52-56. -/
def COMPARE : Mode → Entry → Entry → JsNum
  | Mode.practice => timeCompare
  | Mode.qualifying => timeCompare
  | Mode.race => raceCompare

theorem jsOr_num_ne_zero {q : ℤ} (h : q ≠ 0) (x : JsNum) :
    jsOr (JsNum.num q) x = JsNum.num q := by
  simp [jsOr, JsNum.falsy, h]

theorem jsOr_num_zero (x : JsNum) : jsOr (JsNum.num 0) x = x := by
  simp [jsOr, JsNum.falsy]

theorem jsOr_nan (x : JsNum) : jsOr JsNum.nan x = x := by
  simp [jsOr, JsNum.falsy]

theorem jsOr_posInf (x : JsNum) : jsOr JsNum.posInf x = JsNum.posInf := by
  simp [jsOr, JsNum.falsy]

theorem isNeg_num (q : ℤ) : (JsNum.num q).isNeg = decide (q < 0) := rfl

theorem isPos_num (q : ℤ) : (JsNum.num q).isPos = decide (0 < q) := rfl

theorem numCompare_num_num (t0 t1 : ℤ) :
    numCompare (JsNum.num t0) (JsNum.num t1) = JsNum.num (t0 - t1) := by
  simp [numCompare, JsNum.sub, JsNum.isNaN]

theorem numCompare_num_nan (t : ℤ) :
    numCompare (JsNum.num t) JsNum.nan = JsNum.num (-1) := by
  simp [numCompare, JsNum.sub, JsNum.isNaN]

theorem numCompare_nan_num (t : ℤ) :
    numCompare JsNum.nan (JsNum.num t) = JsNum.num 1 := by
  simp [numCompare, JsNum.sub, JsNum.isNaN]

theorem numCompare_nan_nan : numCompare JsNum.nan JsNum.nan = JsNum.num 0 := by
  simp [numCompare, JsNum.sub, JsNum.isNaN]

/-- C1: In race mode, the leaderboard comparator orders entries by
descending laps; among entries with equal laps, by ascending elapsed time
with NaN sorting after any number; and among entries equal in both, by
ascending lane id.  In particular, with equal laps and numeric times
t0 < t1, the entry with t0 is ranked first (comparator negative). -/
theorem raceCompare_orders_race_entries (a b : Entry) :
    (b.laps < a.laps → (raceCompare a b).isNeg = true)
    ∧ (a.laps = b.laps → ∀ t0 t1 : ℤ, a.time = JsNum.num t0 → b.time = JsNum.num t1 →
        t0 < t1 → (raceCompare a b).isNeg = true)
    ∧ (a.laps = b.laps → ∀ t : ℤ, a.time = JsNum.num t → b.time = JsNum.nan →
        (raceCompare a b).isNeg = true)
    ∧ (a.laps = b.laps → numCompare a.time b.time = JsNum.num 0 → a.id < b.id →
        (raceCompare a b).isNeg = true) := by
  refine ⟨?_, ?_, ?_, ?_⟩
  · intro h
    have hlt : (b.laps : ℤ) - (a.laps : ℤ) < 0 := by
      have : (b.laps : ℤ) < (a.laps : ℤ) := by exact_mod_cast h
      linarith
    rw [raceCompare, jsOr_num_ne_zero (by linarith), jsOr_num_ne_zero (by linarith),
      isNeg_num]
    simpa using hlt
  · intro h t0 t1 ha hb hlt
    have hz : (b.laps : ℤ) - (a.laps : ℤ) = 0 := by rw [h]; ring
    have hd : t0 - t1 < 0 := by linarith
    rw [raceCompare, ha, hb, numCompare_num_num, hz, jsOr_num_zero,
      jsOr_num_ne_zero (by linarith), isNeg_num]
    simpa using hd
  · intro h t ha hb
    have hz : (b.laps : ℤ) - (a.laps : ℤ) = 0 := by rw [h]; ring
    rw [raceCompare, ha, hb, numCompare_num_nan, hz, jsOr_num_zero,
      jsOr_num_ne_zero (by norm_num), isNeg_num]
    norm_num
  · intro h hnc hid
    have hz : (b.laps : ℤ) - (a.laps : ℤ) = 0 := by rw [h]; ring
    have hltq : (a.id : ℤ) - (b.id : ℤ) < 0 := by
      have : (a.id : ℤ) < (b.id : ℤ) := by exact_mod_cast hid
      linarith
    rw [raceCompare, hnc, hz, jsOr_num_zero, jsOr_num_zero, isNeg_num]
    simpa using hltq

/-- Witness for C1: the spec scenario — lanes 0 and 1 both at 10 laps,
lane 0 with time 118000, lane 1 with 120000; lane 0 is ranked first. -/
theorem raceCompare_orders_race_entries_witness :
    (raceCompare
      ⟨0, JsNum.num 118000, 10, [], [], [], JsNum.nan, false, 0, 0, true⟩
      ⟨1, JsNum.num 120000, 10, [], [], [], JsNum.nan, false, 0, 0, true⟩).isNeg = true :=
  (raceCompare_orders_race_entries _ _).2.1 rfl 118000 120000 rfl rfl (by norm_num)

/-!
The "monotonic timer" scan of the Session constructor
(session.ts, lines 88-102).  State is `[prev, offset, then]`, seeded with
`[Infinity, 0, NaN]`; each hardware event carries a lane id, a raw time
and a sector group, and the scan body reads the wall clock (`Date.now()`),
which we pass in explicitly as a rational per event.
-/

/-- One step of the timer scan: if the raw time dropped below the previous
raw value, recompute `offset = ((now - then + prev) || 0) - time`, then
emit `[id, time + offset, group]` and store `[time, offset, now]`. -/
def timerStep (st : JsNum × JsNum × JsNum) (id : ℕ) (time : ℤ) (group : ℕ) (now : ℤ) :
    (ℕ × JsNum × ℕ) × (JsNum × JsNum × JsNum) :=
  let prev := st.1
  let offset0 := st.2.1
  let thenT := st.2.2
  let t : JsNum := JsNum.num time
  let offset :=
    if t.ltb prev then
      (jsOr (((JsNum.num now).sub thenT).add prev) (JsNum.num 0)).sub t
    else offset0
  ((id, t.add offset, group), (t, offset, JsNum.num now))

/-- The seed of the timer scan: `[Infinity, 0, NaN]`. -/
def timerSeed : JsNum × JsNum × JsNum := (JsNum.posInf, JsNum.num 0, JsNum.nan)

/-- Run the timer scan over a list of events `(id, rawTime, group, now)`,
collecting the emitted `[id, correctedTime, group]` triples. -/
def timerRun (evs : List (ℕ × ℤ × ℕ × ℤ)) : List (ℕ × JsNum × ℕ) :=
  (evs.foldl
    (fun (acc : (JsNum × JsNum × JsNum) × List (ℕ × JsNum × ℕ)) e =>
      let r := timerStep acc.1 e.1 e.2.1 e.2.2.1 e.2.2.2
      (r.2, acc.2 ++ [r.1]))
    (timerSeed, [])).2

/-- The corrected times of a timer-scan output. -/
def correctedOf (out : List (ℕ × JsNum × ℕ)) : List JsNum :=
  out.map (fun e => e.2.1)

/-- A list of JS numbers is non-decreasing when no element is strictly
below its predecessor (JS comparison, so NaN never counts as a drop). -/
def jsNonDecreasing : List JsNum → Bool
  | [] => true
  | [_] => true
  | a :: b :: l => !(b.ltb a) && jsNonDecreasing (b :: l)

/-- C3: the corrected-time output of the timer scan is NOT monotonically
non-decreasing in general.  A single lane sending raw times 0, 100, 50,
40 (two wraparounds) with a constant wall clock produces corrected times
0, 100, 100, 50 — a decrease at the second wraparound — because the
recomputed offset `(now - then + prev) - time` discards the previously
accumulated offset.  This contradicts the code's own stated intent
("create monotonic timer", session.ts line 87). -/
theorem timer_not_monotonic :
    correctedOf (timerRun [(0, 0, 1, 0), (0, 100, 1, 0), (0, 50, 1, 0), (0, 40, 1, 0)]) =
      [JsNum.num 0, JsNum.num 100, JsNum.num 100, JsNum.num 50]
    ∧ jsNonDecreasing
        (correctedOf
          (timerRun [(0, 0, 1, 0), (0, 100, 1, 0), (0, 50, 1, 0), (0, 40, 1, 0)])) = false := by
  constructor
  · decide
  · decide

/-- C6 counterexample: the very first event of the raw timer stream does
NOT emit its own raw time.  With first raw time 5, the emitted corrected
time is 0, not 5: since `prev` is seeded to Infinity, the wrap branch
fires on the first event and sets `offset = -5`, not 0. -/
theorem timer_first_event_not_identity :
    correctedOf (timerRun [(0, 5, 1, 0)]) ≠ [JsNum.num 5] := by
  decide

/-- C6 (amended): on the very first event (state still at the seed
`[Infinity, 0, NaN]`), the wrap branch always fires because any finite
raw time is below Infinity; the NaN wall-clock term collapses to 0 via
`|| 0`, so the offset becomes `-t` and the emitted corrected time is 0.
No wall-clock-based correction is applied, but the stream is rebased:
until the first genuine wraparound the offset stays `-t1` and a second
event with raw time t2 >= t1 emits `t2 - t1`. -/
theorem timer_first_event_rebases (id g id2 g2 : ℕ) (t now t2 now2 : ℤ)
    (h : t ≤ t2) :
    timerStep timerSeed id t g now =
      ((id, JsNum.num 0, g), (JsNum.num t, JsNum.num (-t), JsNum.num now))
    ∧ timerStep (timerStep timerSeed id t g now).2 id2 t2 g2 now2 =
      ((id2, JsNum.num (t2 - t), g2),
        (JsNum.num t2, JsNum.num (-t), JsNum.num now2)) := by
  have h1 : timerStep timerSeed id t g now =
      ((id, JsNum.num 0, g), (JsNum.num t, JsNum.num (-t), JsNum.num now)) := by
    simp only [timerStep, timerSeed, JsNum.ltb, JsNum.sub, JsNum.add, jsOr, JsNum.falsy,
      if_true]
    norm_num
  refine ⟨h1, ?_⟩
  rw [h1]
  have hlt : (JsNum.num t2).ltb (JsNum.num t) = false := by
    simp [JsNum.ltb, not_lt.mpr h]
  have harith : t2 + -t = t2 - t := by ring
  simp only [timerStep, hlt, Bool.false_eq_true, if_false, JsNum.add, harith]

/-- Witness for C6 (amended) at raw times 5 then 7: the first event emits
0 with offset -5, the second emits 2. -/
theorem timer_first_event_rebases_witness :
    timerStep timerSeed 0 5 1 0 =
      ((0, JsNum.num 0, 1), (JsNum.num 5, JsNum.num (-5), JsNum.num 0))
    ∧ timerStep (timerStep timerSeed 0 5 1 0).2 0 7 1 0 =
      ((0, JsNum.num (7 - 5), 1), (JsNum.num 7, JsNum.num (-5), JsNum.num 0)) :=
  timer_first_event_rebases 0 1 0 1 5 0 7 0 (by norm_num)

theorem length_setPad (l : List JsNum) (i : ℕ) (v : JsNum) :
    (setPad l i v).length = max l.length (i + 1) := by
  simp [setPad]
  omega

theorem jsGet_setPad_self (l : List JsNum) (i : ℕ) (v : JsNum) :
    jsGet (setPad l i v) i = v := by
  have hlen : i < (l ++ List.replicate (i + 1 - l.length) JsNum.nan).length := by
    simp
    omega
  simp [setPad, jsGet, List.getElem?_set_eq_of_lt _ hlen]

theorem jsGet_setPad_ne (l : List JsNum) {i j : ℕ} (h : j ≠ i) (v : JsNum) :
    jsGet (setPad l i v) j = jsGet l j := by
  simp only [setPad, jsGet, List.getD_eq_getElem?_getD]
  rw [List.getElem?_set_ne (fun hc => h hc.symm)]
  by_cases hj : j < l.length
  · rw [List.getElem?_append_left hj]
  · rw [List.getElem?_append_right (by omega)]
    rw [List.getElem?_replicate]
    have : l[j]? = none := by
      rw [List.getElem?_eq_none]
      omega
    rw [this]
    by_cases hj2 : j - l.length < i + 1 - l.length
    · simp [hj2]
    · simp [hj2]

theorem setPad_setPad (l : List JsNum) (i : ℕ) (v w : JsNum) :
    setPad (setPad l i v) i w = setPad l i w := by
  have hlen : (setPad l i v).length = max l.length (i + 1) := length_setPad l i v
  have hz : i + 1 - (setPad l i v).length = 0 := by omega
  have h1 : setPad (setPad l i v) i w =
      ((setPad l i v) ++ List.replicate (i + 1 - (setPad l i v).length) JsNum.nan).set i w :=
    rfl
  rw [h1, hz, List.replicate_zero, List.append_nil]
  show ((l ++ List.replicate (i + 1 - l.length) JsNum.nan).set i v).set i w = _
  rw [List.set_set]
  rfl

/-!
The per-lane lap/sector fold of `createGrid`
(session.ts, lines 304-329).  The fold state is
`[times, last, best, finished]`; each event is `[id, time, sensor]`.
The payment check `canRecordTime` and the `isFinished` predicate close
over session state that does not change between two back-to-back events,
so they are passed as fixed parameters.
-/

/-- The lap/sector fold state of the `createGrid` scan. -/
structure GridState where
  times : List (List JsNum)
  last : List JsNum
  best : List JsNum
  finished : Bool
deriving DecidableEq, Repr

/-- The seed of the `createGrid` scan: `[[], [], [], false]`. -/
def initGridState : GridState := ⟨[], [], [], false⟩

/-- `tail`: the sector-time vector of the current (possibly unfinished)
lap, `times[times.length - 1] || []`. -/
def laneTail (st : GridState) : List JsNum := st.times.getLast?.getD []

/-- The reference crossing time the debounce compares against:
`tail.length >= sensor ? tail[sensor - 1] : -Infinity`. -/
def laneRef (st : GridState) (sensor : ℕ) : JsNum :=
  if sensor ≤ (laneTail st).length then jsGet (laneTail st) (sensor - 1) else JsNum.negInf

/-- The acceptance test of the fold:
`sensor && time > ref + minLapTime && canRecordTime`. -/
def gridAccepts (minLapTime : ℤ) (canRecord : Bool) (st : GridState)
    (time : JsNum) (sensor : ℕ) : Bool :=
  (sensor != 0) && ((laneRef st sensor).add (JsNum.num minLapTime)).ltb time && canRecord

/-- One step of the `createGrid` times scan (session.ts lines 304-329).
On `sensor == 1` a new lap vector `[time]` is pushed and the previous
lap's total (and, when it recorded several sectors, final split) is
written into `last`/`best`; on `sensor > 1` the split is written into the
current lap vector (note: when `times` is still empty, `tail` is the
`[]` literal, so the in-place mutation is lost).  The `isFin` parameter
is `Session.isFinished`, applied to the new completed-lap count. -/
def gridScanStep (minLapTime : ℤ) (canRecord : Bool) (isFin : ℕ → Bool)
    (st : GridState) (ev : ℕ × JsNum × ℕ) : GridState :=
  let time := ev.2.1
  let sensor := ev.2.2
  let tail := laneTail st
  if gridAccepts minLapTime canRecord st time sensor then
    if sensor == 1 then
      let times2 := st.times ++ [[time]]
      let lap0 := time.sub (jsGet tail 0)
      let last2 := setPad st.last 0 lap0
      let best2 := setPad st.best 0 (jsMin lap0 (jsOr (jsGet st.best 0) JsNum.posInf))
      let lastSec := time.sub (jsGet tail (tail.length - 1))
      let last3 := if 1 < tail.length then setPad last2 tail.length lastSec else last2
      let best3 := if 1 < tail.length then
          setPad best2 tail.length
            (jsMin lastSec (jsOr (jsGet best2 tail.length) JsNum.posInf))
        else best2
      let finished2 := if !st.finished && isFin (times2.length - 1) then true else st.finished
      ⟨times2, last3, best3, finished2⟩
    else
      let index := sensor - 1
      let tail2 := setPad tail index time
      let times2 := if st.times.isEmpty then st.times else st.times.dropLast ++ [tail2]
      let d := time.sub (jsGet tail2 (index - 1))
      let last2 := setPad st.last index d
      let best2 := setPad st.best index (jsMin d (jsOr (jsGet st.best index) JsNum.posInf))
      ⟨times2, last2, best2, st.finished⟩
  else st

theorem ltb_add_nonneg_self (t : JsNum) {m : ℤ} (hm : 0 ≤ m) :
    (t.add (JsNum.num m)).ltb t = false := by
  cases t with
  | num q => simp [JsNum.add, JsNum.ltb]; omega
  | posInf => rfl
  | negInf => rfl
  | nan => rfl

theorem sub_nan (t : JsNum) : t.sub JsNum.nan = JsNum.nan := by
  cases t <;> rfl

theorem jsMin_nan_left (x : JsNum) : jsMin JsNum.nan x = JsNum.nan := rfl

theorem gridScanStep_of_rejected {m : ℤ} {cr : Bool} {fin : ℕ → Bool} {st : GridState}
    {id : ℕ} {t : JsNum} {s : ℕ} (h : gridAccepts m cr st t s = false) :
    gridScanStep m cr fin st (id, t, s) = st := by
  simp [gridScanStep, h]

theorem gridAccepts_congr_tail {m : ℤ} {cr : Bool} {st₁ st₂ : GridState}
    {t : JsNum} {s : ℕ} (h : laneTail st₁ = laneTail st₂) :
    gridAccepts m cr st₁ t s = gridAccepts m cr st₂ t s := by
  simp [gridAccepts, laneRef, h]

theorem gridScanStep_empty_sector {m : ℤ} {cr : Bool} (fin : ℕ → Bool) {st : GridState}
    (id : ℕ) {t : JsNum} {s : ℕ} (hs1 : s ≠ 1) (hemp : st.times = [])
    (hacc : gridAccepts m cr st t s = true) :
    gridScanStep m cr fin st (id, t, s) =
      ⟨st.times, setPad st.last (s - 1) JsNum.nan, setPad st.best (s - 1) JsNum.nan,
        st.finished⟩ := by
  have hs0 : s ≠ 0 := by
    intro h
    rw [h] at hacc
    simp [gridAccepts] at hacc
  have htail : laneTail st = [] := by simp [laneTail, hemp]
  have hne : s - 1 - 1 ≠ s - 1 := by omega
  have hget : jsGet (setPad ([] : List JsNum) (s - 1) t) (s - 1 - 1) = JsNum.nan := by
    rw [jsGet_setPad_ne _ hne]
    rfl
  simp only [gridScanStep, hacc, if_true, beq_iff_eq, hs1, if_false, hemp, htail,
    List.isEmpty_nil, hget, sub_nan, jsMin_nan_left]

/-- C4: the lap/sector fold is idempotent on a repeated event: applying
the same `(time, sector)` event twice in immediate succession leaves
`times`, `last`, `best` and the lap count exactly as after the first
application, because after an accepted crossing the reference time for
that sector equals the event's own time, and a time can never exceed
itself plus a non-negative `minLapTime` (and a rejected event changes
nothing at all). -/
theorem gridScanStep_debounce_idempotent (m : ℤ) (hm : 0 ≤ m) (cr : Bool)
    (fin : ℕ → Bool) (st : GridState) (id : ℕ) (t : JsNum) (s : ℕ) :
    gridScanStep m cr fin (gridScanStep m cr fin st (id, t, s)) (id, t, s) =
      gridScanStep m cr fin st (id, t, s) := by
  by_cases hacc : gridAccepts m cr st t s = true
  · have hs0 : s ≠ 0 := by
      intro h
      rw [h] at hacc
      simp [gridAccepts] at hacc
    by_cases hs1 : s = 1
    · subst hs1
      have htimes : (gridScanStep m cr fin st (id, t, 1)).times = st.times ++ [[t]] := by
        simp [gridScanStep, hacc]
      have htail : laneTail (gridScanStep m cr fin st (id, t, 1)) = [t] := by
        simp [laneTail, htimes, List.getLast?_concat]
      have hacc2 : gridAccepts m cr (gridScanStep m cr fin st (id, t, 1)) t 1 = false := by
        simp [gridAccepts, laneRef, htail, jsGet, ltb_add_nonneg_self t hm]
      exact gridScanStep_of_rejected hacc2
    · by_cases hemp : st.times = []
      · have h1 := gridScanStep_empty_sector fin id hs1 hemp hacc
        have htail1 : laneTail (gridScanStep m cr fin st (id, t, s)) = laneTail st := by
          rw [h1]
          simp [laneTail, hemp]
        have hacc1 : gridAccepts m cr (gridScanStep m cr fin st (id, t, s)) t s = true := by
          rw [gridAccepts_congr_tail htail1]
          exact hacc
        have hemp1 : (gridScanStep m cr fin st (id, t, s)).times = [] := by
          rw [h1, hemp]
        have h2 := gridScanStep_empty_sector fin id hs1 hemp1 hacc1
        rw [h2, h1]
        simp [setPad_setPad]
      · have hs2 : 2 ≤ s := by omega
        have htimes : (gridScanStep m cr fin st (id, t, s)).times =
            st.times.dropLast ++ [setPad (laneTail st) (s - 1) t] := by
          have : st.times.isEmpty = false := by
            cases h : st.times with
            | nil => exact absurd h hemp
            | cons a l => rfl
          simp [gridScanStep, hacc, hs1, this]
        have htail : laneTail (gridScanStep m cr fin st (id, t, s)) =
            setPad (laneTail st) (s - 1) t := by
          simp [laneTail, htimes, List.getLast?_concat]
        have hlen : s ≤ (setPad (laneTail st) (s - 1) t).length := by
          rw [length_setPad]
          omega
        have hacc2 : gridAccepts m cr (gridScanStep m cr fin st (id, t, s)) t s = false := by
          simp [gridAccepts, laneRef, htail, hlen, jsGet_setPad_self,
            ltb_add_nonneg_self t hm]
        exact gridScanStep_of_rejected hacc2
  · have h0 : gridAccepts m cr st t s = false := by
      revert hacc
      cases gridAccepts m cr st t s <;> simp
    rw [gridScanStep_of_rejected h0, gridScanStep_of_rejected h0]

/-- Witness for C4: one concrete sector-1 crossing at time 1000 with
minLapTime 500 on the initial lane state; a second identical event is a
no-op. -/
theorem gridScanStep_debounce_idempotent_witness :
    (0 : ℤ) ≤ 500
    ∧ gridScanStep 500 true (fun _ => false)
        (gridScanStep 500 true (fun _ => false) initGridState (0, JsNum.num 1000, 1))
        (0, JsNum.num 1000, 1) =
      gridScanStep 500 true (fun _ => false) initGridState (0, JsNum.num 1000, 1) :=
  ⟨by decide,
    gridScanStep_debounce_idempotent 500 (by decide) true (fun _ => false) initGridState
      0 (JsNum.num 1000) 1⟩

/-!
The ranking pipeline (session.ts, lines 115-142): a scan accumulating the
latest Entry per lane into a sparse array (`newgrid[event.id] = event`),
then per tick a filter dropping missing and payment-masked lanes,
then `ranks.sort(compare)`.

`Array.prototype.sort` with a comparator is modelled by a stable
insertion sort: an element is inserted before the first element it does
not compare greater than (a NaN comparator result counts as zero, per the
ECMAScript SortCompare specification).  For a consistent comparator this
is exactly the stable sort the ECMAScript specification mandates.
-/

/-- Stable insertion of `a` into `l`: skip the elements `a` compares
greater than, then place `a` (so `a` lands before later-input elements
that tie with it). -/
def jsInsert {α : Type} (cmp : α → α → JsNum) (a : α) : List α → List α
  | [] => [a]
  | b :: l => if (cmp a b).isPos then b :: jsInsert cmp a l else a :: b :: l

/-- Stable sort by a JS comparator (model of `Array.prototype.sort`). -/
def jsSort {α : Type} (cmp : α → α → JsNum) : List α → List α
  | [] => []
  | a :: l => jsInsert cmp a (jsSort cmp l)

theorem jsInsert_perm {α : Type} (cmp : α → α → JsNum) (a : α) (l : List α) :
    List.Perm (jsInsert cmp a l) (a :: l) := by
  induction l with
  | nil => rfl
  | cons b t ih =>
    by_cases h : (cmp a b).isPos = true
    · simp only [jsInsert, h, if_true]
      exact (ih.cons b).trans (List.Perm.swap a b t)
    · rw [Bool.not_eq_true] at h
      simp only [jsInsert, h, Bool.false_eq_true, if_false]
      exact List.Perm.refl _

theorem jsSort_perm {α : Type} (cmp : α → α → JsNum) (l : List α) :
    List.Perm (jsSort cmp l) l := by
  induction l with
  | nil => rfl
  | cons a t ih =>
    exact (jsInsert_perm cmp a (jsSort cmp t)).trans (ih.cons a)

theorem mem_jsSort {α : Type} {cmp : α → α → JsNum} {x : α} {l : List α} :
    x ∈ jsSort cmp l ↔ x ∈ l :=
  (jsSort_perm cmp l).mem_iff

/-- Sparse-array assignment on the ranking grid
(`newgrid[event.id] = event`). -/
def gridUpdate (grid : List (Option Entry)) (e : Entry) : List (Option Entry) :=
  (grid ++ List.replicate (e.id + 1 - grid.length) none).set e.id (some e)

/-- `isCarMaskedByPayment` (session.ts lines 243-245):
`(unpaidMask & (1 << carId)) !== 0`. -/
def isCarMaskedByPayment (unpaidMask carId : ℕ) : Bool :=
  decide (unpaidMask &&& 2 ^ carId ≠ 0)

/-- One leaderboard emission (session.ts lines 128-141): drop missing
lanes and payment-masked lanes, then sort with the mode's comparator. -/
def rankingTick (unpaidMask : ℕ) (cmp : Entry → Entry → JsNum)
    (grid : List (Option Entry)) : List Entry :=
  jsSort cmp
    ((grid.filterMap (fun x => x)).filter (fun car => !isCarMaskedByPayment unpaidMask car.id))

/-- The ranking scan run over a stream of lane entries: accumulates the
grid and collects every emitted leaderboard. -/
def rankingRun (unpaidMask : ℕ) (cmp : Entry → Entry → JsNum) (events : List Entry) :
    List (Option Entry) × List (List Entry) :=
  events.foldl
    (fun st e =>
      let g := gridUpdate st.1 e
      (g, st.2 ++ [rankingTick unpaidMask cmp g]))
    ([], [])

theorem mem_rankingTick_not_masked {m : ℕ} {cmp : Entry → Entry → JsNum}
    {grid : List (Option Entry)} {e : Entry} (h : e ∈ rankingTick m cmp grid) :
    isCarMaskedByPayment m e.id = false := by
  rw [rankingTick, mem_jsSort, List.mem_filter] at h
  have := h.2
  simpa using this

theorem rankingRun_fst (m : ℕ) (cmp : Entry → Entry → JsNum) (events : List Entry) :
    ∀ (g : List (Option Entry)) (out : List (List Entry)),
      (events.foldl
        (fun st e =>
          let g2 := gridUpdate st.1 e
          (g2, st.2 ++ [rankingTick m cmp g2])) (g, out)).1 =
      events.foldl gridUpdate g := by
  induction events with
  | nil => intro g out; rfl
  | cons e t ih => intro g out; exact ih (gridUpdate g e) _

theorem rankingRun_snd_mem {m : ℕ} {cmp : Entry → Entry → JsNum} {events : List Entry} :
    ∀ (g : List (Option Entry)) (out : List (List Entry)) (o : List Entry),
      o ∈ (events.foldl
        (fun st e =>
          let g2 := gridUpdate st.1 e
          (g2, st.2 ++ [rankingTick m cmp g2])) (g, out)).2 →
      o ∈ out ∨ ∃ g2, o = rankingTick m cmp g2 := by
  induction events with
  | nil => intro g out o h; exact Or.inl h
  | cons e t ih =>
    intro g out o h
    rcases ih (gridUpdate g e) (out ++ [rankingTick m cmp (gridUpdate g e)]) o h with h1 | h1
    · rcases List.mem_append.mp h1 with h2 | h2
      · exact Or.inl h2
      · right
        refine ⟨gridUpdate g e, ?_⟩
        simpa using h2
    · exact Or.inr h1

/-- C2: on every ranking tick, a lane whose bit is set in the session's
unpaid mask is absent from the emitted leaderboard regardless of its
timing data, and the underlying grid of per-lane entries evolves exactly
as it would with no mask at all (the filter never mutates it). -/
theorem ranking_excludes_unpaid_lanes (m : ℕ) (cmp : Entry → Entry → JsNum)
    (events : List Entry) (lane : ℕ) (h : m &&& 2 ^ lane ≠ 0) :
    (∀ out ∈ (rankingRun m cmp events).2, ∀ e ∈ out, e.id ≠ lane)
    ∧ (rankingRun m cmp events).1 = (rankingRun 0 cmp events).1 := by
  constructor
  · intro out hout e he hid
    rcases rankingRun_snd_mem [] [] out hout with h1 | h1
    · simp at h1
    · rcases h1 with ⟨g2, rfl⟩
      have hmask := mem_rankingTick_not_masked he
      rw [hid] at hmask
      simp [isCarMaskedByPayment, h] at hmask
  · rw [rankingRun, rankingRun, rankingRun_fst, rankingRun_fst]

/-- Witness for C2: unpaid mask 0b100 excludes lane 2 from the emitted
leaderboard even after lane 2 publishes an entry, and the grid is the
same as with mask 0. -/
theorem ranking_excludes_unpaid_lanes_witness :
    ((4 : ℕ) &&& 2 ^ 2 ≠ 0)
    ∧ (∀ out ∈ (rankingRun 4 raceCompare
        [⟨2, JsNum.num 100, 3, [], [], [], JsNum.nan, false, 0, 0, false⟩]).2,
        ∀ e ∈ out, e.id ≠ 2)
    ∧ (rankingRun 4 raceCompare
        [⟨2, JsNum.num 100, 3, [], [], [], JsNum.nan, false, 0, 0, false⟩]).1 =
      (rankingRun 0 raceCompare
        [⟨2, JsNum.num 100, 3, [], [], [], JsNum.nan, false, 0, 0, false⟩]).1 :=
  ⟨by decide,
    (ranking_excludes_unpaid_lanes 4 raceCompare _ 2 (by decide)).1,
    (ranking_excludes_unpaid_lanes 4 raceCompare _ 2 (by decide)).2⟩

/-!
Session-level mutable state (the fields of `class Session` used by
`applyUnpaidMask`, `stop` and `finish`).  Hardware commands (`cu.setMask`,
`cu.setFinished`) and car-sync calls are modelled as emitted signals.
-/

/-- The session fields used by `applyUnpaidMask`, `stop` and `finish`. -/
structure SessionState where
  mask : ℕ
  active : ℕ
  unpaidMask : ℕ
  coinsConsumed : Bool
  stopped : Bool
  manuallyStopped : Bool
  finishedFlag : Bool
  autoBlocked : List ℕ
  hasCarSync : Bool
deriving DecidableEq, Repr

/-- `applyUnpaidMask` (session.ts lines 232-238): store the unpaid mask
and OR it into the live lane mask (the subsequent `cu.setMask` push is a
hardware side effect). -/
def applyUnpaidMask (st : SessionState) (um : ℕ) : SessionState :=
  { st with unpaidMask := um, mask := st.mask ||| um }

/-- The timer-stream mask filter of the Session constructor
(session.ts lines 90-92): an event is kept only when the lane's bit is
clear in the live mask. -/
def maskFilter (mask : ℕ) (evs : List (ℕ × JsNum × ℕ)) : List (ℕ × JsNum × ℕ) :=
  evs.filter (fun e => decide (mask &&& 2 ^ e.1 = 0))

/-- The per-lane composition of `groupBy` and the times scan of
`createGrid`: fold the events of one lane over the lap/sector step. -/
def laneFold (m : ℤ) (cr : Bool) (fin : ℕ → Bool)
    (evs : List (ℕ × JsNum × ℕ)) (lane : ℕ) : GridState :=
  (evs.filter (fun e => e.1 == lane)).foldl (gridScanStep m cr fin) initGridState

theorem maskFilter_drops_masked_lane (mask lane : ℕ) (h : mask &&& 2 ^ lane ≠ 0) :
    ∀ evs : List (ℕ × JsNum × ℕ),
      (maskFilter mask evs).filter (fun e => e.1 == lane) = []
  | [] => rfl
  | e :: t => by
    have ih := maskFilter_drops_masked_lane mask lane h t
    by_cases he : mask &&& 2 ^ e.1 = 0
    · have hne : (e.1 == lane) = false := by
        simp only [beq_eq_false_iff_ne, ne_eq]
        intro hc
        rw [hc] at he
        exact h he
      simp only [maskFilter, List.filter_cons, he, decide_eq_true_eq, if_true] at ih ⊢
      simp only [decide_eq_true_eq, if_pos he, List.filter_cons, hne, Bool.false_eq_true,
        if_false]
      exact ih
    · simp only [maskFilter, List.filter_cons, decide_eq_true_eq, if_neg he] at ih ⊢
      exact ih

/-- C7 counterexample: after `applyUnpaidMask(0b100)` on a mask-0 session
the session mask is 0b100, but lane 2's hardware timer events are then
dropped by the constructor's mask filter, so lane 2's lap/sector state
does NOT keep accumulating: the lane-2 fold stays at its initial state,
although the very same events would have accumulated a lap had they not
been filtered (last conjunct). -/
theorem unpaid_lane_stops_accumulating :
    (applyUnpaidMask ⟨0, 0, 0, false, false, false, false, [], true⟩ 4).mask = 4
    ∧ (applyUnpaidMask ⟨0, 0, 0, false, false, false, false, [], true⟩ 4).unpaidMask = 4
    ∧ laneFold 500 true (fun _ => false)
        (maskFilter (applyUnpaidMask ⟨0, 0, 0, false, false, false, false, [], true⟩ 4).mask
          [(2, JsNum.num 1000, 1)]) 2 = initGridState
    ∧ laneFold 500 true (fun _ => false) [(2, JsNum.num 1000, 1)] 2 ≠ initGridState := by
  refine ⟨by decide, by decide, by decide, by decide⟩

/-- C7 (amended): `applyUnpaidMask(0b00000100)` on a session whose mask
is 0 makes the session mask and the stored unpaid mask exactly 0b100;
lane 2 is thereafter absent from every leaderboard emission; and lane 2's
hardware timer events are dropped by the session's mask filter, so its
lap/sector state stops accumulating (it keeps only the state it already
had), rather than continuing to accumulate as the original claim said. -/
theorem applyUnpaidMask_locks_out_lane (st : SessionState) (h : st.mask = 0) :
    (applyUnpaidMask st 4).mask = 4
    ∧ (applyUnpaidMask st 4).unpaidMask = 4
    ∧ (∀ (cmp : Entry → Entry → JsNum) (g : List (Option Entry)) (e : Entry),
        e ∈ rankingTick (applyUnpaidMask st 4).unpaidMask cmp g → e.id ≠ 2)
    ∧ (∀ (m : ℤ) (cr : Bool) (fin : ℕ → Bool) (evs : List (ℕ × JsNum × ℕ)),
        laneFold m cr fin (maskFilter (applyUnpaidMask st 4).mask evs) 2 = initGridState) := by
  have hmask : (applyUnpaidMask st 4).mask = 4 := by
    simp [applyUnpaidMask, h]
  refine ⟨hmask, rfl, ?_, ?_⟩
  · intro cmp g e he hid
    have hm := mem_rankingTick_not_masked he
    rw [hid] at hm
    have hm4 : isCarMaskedByPayment 4 2 = false := hm
    have ht : isCarMaskedByPayment 4 2 = true := by decide
    rw [ht] at hm4
    exact absurd hm4 (by decide)
  · intro m cr fin evs
    rw [laneFold, hmask, maskFilter_drops_masked_lane 4 2 (by decide) evs]
    rfl

/-- Witness for C7 (amended), at the concrete scenario state and one
concrete lane-2 hardware event. -/
theorem applyUnpaidMask_locks_out_lane_witness :
    (applyUnpaidMask ⟨0, 0, 0, false, false, false, false, [], false⟩ 4).mask = 4
    ∧ laneFold 500 true (fun _ => false)
        (maskFilter (applyUnpaidMask ⟨0, 0, 0, false, false, false, false, [], false⟩ 4).mask
          [(2, JsNum.num 1000, 1), (2, JsNum.num 2000, 1)]) 2 = initGridState :=
  ⟨(applyUnpaidMask_locks_out_lane _ rfl).1,
    (applyUnpaidMask_locks_out_lane _ rfl).2.2.2 500 true (fun _ => false) _⟩

/-- Clear bit `i` of `m` (`mask &= ~(1 << id)`). -/
def clearBit (m i : ℕ) : ℕ := if m.testBit i then m - 2 ^ i else m

/-- The participating car ids computed on global finish
(session.ts lines 414-419): every lane 0..5 whose unpaid bit is clear,
converted to a 1-based car id. -/
def participating (unpaidMask : ℕ) : List ℕ :=
  (List.range 6).filterMap (fun i => if unpaidMask &&& 2 ^ i = 0 then some (i + 1) else none)

/-- Outbound side effects of `finish`: hardware mask/finish commands and
the two car-sync collaborator calls. -/
inductive Signal where
  | setMask (mask : ℕ)
  | setFinishedSig (id : ℕ)
  | consumeCoins (ids : List ℕ)
  | blockAll
deriving DecidableEq, Repr

/-- `Session.finish` (session.ts lines 373-445).  `mu` is
`carSync.isCarManuallyUnblocked` keyed by 1-based car id.  Returns the
updated session state and the emitted signals, in program order. -/
def Session.finish (mu : ℕ → Bool) (st : SessionState) (idOpt : Option ℕ) :
    SessionState × List Signal :=
  let mask0 := st.mask
  let mask1 := st.mask ||| (255 ^^^ (st.active &&& 255))
  let blockStep : ℕ × List ℕ :=
    match idOpt with
    | none => (mask1, st.autoBlocked)
    | some id =>
      let isMU := st.hasCarSync && mu (id + 1)
      let already := st.autoBlocked.contains id
      if !isMU && !already then (mask1 ||| 2 ^ id, st.autoBlocked ++ [id])
      else if isMU then (clearBit mask1 id, st.autoBlocked)
      else (mask1, st.autoBlocked)
  let mask2 := blockStep.1
  let sigs1 : List Signal := if mask0 ≠ mask2 then [Signal.setMask mask2] else []
  let sigs2 : List Signal :=
    match idOpt with
    | some id => [Signal.setFinishedSig id]
    | none => []
  let doCoins := st.hasCarSync && idOpt.isNone && !st.coinsConsumed
  let coins2 := if doCoins then true else st.coinsConsumed
  let sigs3 : List Signal :=
    if doCoins then
      (if !st.manuallyStopped then
        (if 0 < (participating st.unpaidMask).length then
          [Signal.consumeCoins (participating st.unpaidMask)]
         else [])
       else [])
      ++ [Signal.blockAll]
    else []
  let fin2 := if idOpt.isNone then true else st.finishedFlag
  ({ st with
      mask := mask2
      autoBlocked := blockStep.2
      coinsConsumed := coins2
      finishedFlag := fin2 },
    sigs1 ++ sigs2 ++ sigs3)

/-- `Session.stop` (session.ts lines 207-211): mark the session stopped
and manually stopped, then finish globally. -/
def Session.stop (mu : ℕ → Bool) (st : SessionState) : SessionState × List Signal :=
  Session.finish mu { st with stopped := true, manuallyStopped := true } none

/-- The credit-consumption signals of an emitted signal list. -/
def consumeLists (l : List Signal) : List (List ℕ) :=
  l.filterMap (fun s =>
    match s with
    | Signal.consumeCoins ids => some ids
    | _ => none)

/-- The number of block-all-active-cars signals in a signal list. -/
def countBlockAll (l : List Signal) : ℕ :=
  l.countP (fun s => s == Signal.blockAll)

/-- C5: on a global finish of a session with the car-sync collaborator
whose credits are not yet consumed: when not manually stopped (and at
least one lane participates), exactly one credit-consumption signal is
issued naming exactly the participating 1-based car ids, together with
exactly one block-all signal; stopping manually via `stop()` suppresses
the consumption signal but still issues the block-all; the finished flag
is set; and both side effects happen at most once — a repeated global
finish issues neither signal again. -/
theorem finish_global_signals (st : SessionState) (mu : ℕ → Bool)
    (h1 : st.hasCarSync = true) (h2 : st.coinsConsumed = false) :
    (st.manuallyStopped = false → participating st.unpaidMask ≠ [] →
      consumeLists (Session.finish mu st none).2 = [participating st.unpaidMask]
      ∧ countBlockAll (Session.finish mu st none).2 = 1)
    ∧ (consumeLists (Session.stop mu st).2 = []
      ∧ countBlockAll (Session.stop mu st).2 = 1)
    ∧ (Session.finish mu st none).1.finishedFlag = true
    ∧ (Session.finish mu st none).1.coinsConsumed = true
    ∧ consumeLists (Session.finish mu (Session.finish mu st none).1 none).2 = []
    ∧ countBlockAll (Session.finish mu (Session.finish mu st none).1 none).2 = 0 := by
  refine ⟨?_, ?_, ?_, ?_, ?_, ?_⟩
  · intro hms hp
    have hlen : 0 < (participating st.unpaidMask).length := List.length_pos.mpr hp
    constructor
    · simp [Session.finish, consumeLists, h1, h2, hms, hlen, List.filterMap_append]
    · simp [Session.finish, countBlockAll, h1, h2, hms, hlen, List.countP_append]
  · constructor
    · simp [Session.stop, Session.finish, consumeLists, h1, h2, List.filterMap_append]
    · simp [Session.stop, Session.finish, countBlockAll, h1, h2, List.countP_append]
  · simp [Session.finish]
  · simp [Session.finish, h1, h2]
  · simp [Session.finish, consumeLists, h1, h2, List.filterMap_append]
  · simp [Session.finish, countBlockAll, h1, h2, List.countP_append]

/-- Witness for C5: a session with lanes 3,4,5 unpaid (mask 0b111000)
consumes credits for exactly the 1-based car ids [1, 2, 3]. -/
theorem finish_global_signals_witness :
    participating 56 ≠ []
    ∧ consumeLists (Session.finish (fun _ => false)
        ⟨0, 7, 56, false, false, false, false, [], true⟩ none).2 = [participating 56]
    ∧ countBlockAll (Session.finish (fun _ => false)
        ⟨0, 7, 56, false, false, false, false, [], true⟩ none).2 = 1 :=
  ⟨by decide,
    ((finish_global_signals ⟨0, 7, 56, false, false, false, false, [], true⟩
      (fun _ => false) rfl rfl).1 rfl (by decide)).1,
    ((finish_global_signals ⟨0, 7, 56, false, false, false, false, [], true⟩
      (fun _ => false) rfl rfl).1 rfl (by decide)).2⟩

/-!
The best-lap / best-sector event derivation of `startSession`
(rms.page.ts, lines 190-205): a single cache array
`const best = [Infinity, Infinity, Infinity, Infinity]` shared by ALL
lanes, and for each grid update `curr`, `curr.best.forEach((time, index))`
pushes `bestlap` (index 0) or `bests{index}` when
`(time || Infinity) < best[index]`, updating the cache first and only
then testing `curr.laps >= 3` before pushing the event.  An event is
modelled as the pair (sector index, lane id).  `forEach` skips array
holes; a hole modelled as NaN gives `(NaN || Infinity) = Infinity`, which
is never below the cache, so the model is observationally identical.
-/

/-- The shared best-time cache as initialized in `startSession`. -/
def initBestCache : List JsNum :=
  [JsNum.posInf, JsNum.posInf, JsNum.posInf, JsNum.posInf]

/-- The improvement test of the best-event branch, relative to a cache:
`(time || Infinity) < best[index]`. -/
def bestCond (cache : List JsNum) (curr : Entry) (i : ℕ) : Bool :=
  (jsOr (jsGet curr.best i) JsNum.posInf).ltb (jsGet cache i)

/-- Processing one grid update through the best-event branch: fold over
the indices of `curr.best`, updating the shared cache on improvement and
emitting the event only when the lane has at least 3 completed laps. -/
def bestEventsStep (cache : List JsNum) (curr : Entry) : List JsNum × List (ℕ × ℕ) :=
  (List.range curr.best.length).foldl
    (fun st i =>
      let time := jsGet curr.best i
      if (jsOr time JsNum.posInf).ltb (jsGet st.1 i) then
        (setPad st.1 i time,
          st.2 ++ (if 3 ≤ curr.laps then [(i, curr.id)] else []))
      else st)
    (cache, [])

/-- C9 counterexample: a lane whose own best sector-1 time strictly
improves (from nothing to 5000) while it has only 1 completed lap emits
NO bestSector1 event: the `laps >= 3` gate in the code applies to every
best event, not only to the full-lap one. -/
theorem best_sector_event_gated_by_laps :
    bestCond initBestCache
      ⟨0, JsNum.num 42000, 1, [], [JsNum.nan, JsNum.num 5000], [], JsNum.nan,
        false, 0, 1, false⟩ 1 = true
    ∧ (bestEventsStep initBestCache
        ⟨0, JsNum.num 42000, 1, [], [JsNum.nan, JsNum.num 5000], [], JsNum.nan,
          false, 0, 1, false⟩).2 = [] := by
  refine ⟨by decide, by decide⟩

theorem bestEvents_foldl_spec (curr : Entry) (cache : List JsNum) :
    ∀ (l : List ℕ), l.Nodup →
      ∀ (c : List JsNum) (evs : List (ℕ × ℕ)),
        (∀ k ∈ l, jsGet c k = jsGet cache k) →
        (l.foldl
          (fun st i =>
            let time := jsGet curr.best i
            if (jsOr time JsNum.posInf).ltb (jsGet st.1 i) then
              (setPad st.1 i time,
                st.2 ++ (if 3 ≤ curr.laps then [(i, curr.id)] else []))
            else st)
          (c, evs)).2 =
        evs ++ l.filterMap (fun i =>
          if bestCond cache curr i then
            (if 3 ≤ curr.laps then some (i, curr.id) else none)
          else none)
  | [], _, c, evs, _ => by simp
  | i :: t, hnd, c, evs, hc => by
    have hndt : t.Nodup := hnd.of_cons
    have hit : i ∉ t := by
      intro hmem
      exact (List.nodup_cons.mp hnd).1 hmem
    have hci : jsGet c i = jsGet cache i := hc i (List.mem_cons_self i t)
    by_cases himp : bestCond cache curr i = true
    · have himp' : (jsOr (jsGet curr.best i) JsNum.posInf).ltb (jsGet c i) = true := by
        rw [hci]
        exact himp
      have hct : ∀ k ∈ t, jsGet (setPad c i (jsGet curr.best i)) k = jsGet cache k := by
        intro k hk
        have hki : k ≠ i := by
          intro hkeq
          rw [hkeq] at hk
          exact hit hk
        rw [jsGet_setPad_ne _ hki]
        exact hc k (List.mem_cons_of_mem i hk)
      have ih := bestEvents_foldl_spec curr cache t hndt
        (setPad c i (jsGet curr.best i))
        (evs ++ (if 3 ≤ curr.laps then [(i, curr.id)] else [])) hct
      by_cases hlaps : 3 ≤ curr.laps
      · simp only [List.foldl_cons, himp', if_true, hlaps] at ih ⊢
        rw [ih]
        simp [List.filterMap_cons, himp, hlaps]
      · simp only [List.foldl_cons, himp', if_true, hlaps] at ih ⊢
        rw [ih]
        simp [List.filterMap_cons, himp, hlaps]
    · have himp0 : bestCond cache curr i = false := by
        revert himp
        cases bestCond cache curr i <;> simp
      have himp' : (jsOr (jsGet curr.best i) JsNum.posInf).ltb (jsGet c i) = false := by
        rw [hci]
        exact himp0
      have ih := bestEvents_foldl_spec curr cache t hndt c evs
        (fun k hk => hc k (List.mem_cons_of_mem i hk))
      simp only [List.foldl_cons, himp', Bool.false_eq_true, if_false] at ih ⊢
      rw [ih]
      simp [List.filterMap_cons, himp0]

/-- C9 (amended): a best event for sector index i and lane cid is emitted
on a grid update `curr` exactly when i is a valid index of `curr.best`,
`(curr.best[i] || Infinity)` is strictly below the SHARED cache entry
`best[i]` (one cache array for all lanes, not the lane's own history),
the lane has completed at least 3 laps (the gate applies to the full-lap
event and to every per-sector event alike), and cid is the lane's id.
The cache itself updates on improvement even when the event is
suppressed by the laps gate. -/
theorem bestEvents_emitted_iff (cache : List JsNum) (curr : Entry) (i cid : ℕ) :
    (i, cid) ∈ (bestEventsStep cache curr).2 ↔
      (i < curr.best.length ∧ bestCond cache curr i = true
        ∧ 3 ≤ curr.laps ∧ cid = curr.id) := by
  rw [bestEventsStep, bestEvents_foldl_spec curr cache (List.range curr.best.length)
    (List.nodup_range _) cache [] (fun _ _ => rfl)]
  simp only [List.nil_append, List.mem_filterMap, List.mem_range]
  constructor
  · rintro ⟨j, hj, hg⟩
    by_cases hcnd : bestCond cache curr j = true
    · rw [if_pos hcnd] at hg
      by_cases hlaps : 3 ≤ curr.laps
      · rw [if_pos hlaps] at hg
        have hji : j = i ∧ curr.id = cid := by
          have := Option.some.inj hg
          exact ⟨congrArg Prod.fst this, congrArg Prod.snd this⟩
        refine ⟨hji.1 ▸ hj, hji.1 ▸ hcnd, hlaps, hji.2.symm⟩
      · rw [if_neg hlaps] at hg
        exact absurd hg (Option.some_ne_none _).symm
    · have : bestCond cache curr j = false := by
        revert hcnd
        cases bestCond cache curr j <;> simp
      rw [this] at hg
      simp at hg
  · rintro ⟨hi, hcnd, hlaps, rfl⟩
    exact ⟨i, hi, by rw [if_pos hcnd, if_pos hlaps]⟩

/-!
`createMask` (session.ts lines 10-17):

    function createMask(first, last) {
      let mask = 0;
      while (first !== last) { mask |= (1 << first); ++first; }
      return mask;
    }

The loop is modelled with explicit fuel: `createMaskFuel fuel mask first
last` returns `some` of the final mask when the loop exits within `fuel`
iterations and `none` otherwise, so the loop terminates on some input
exactly when some fuel yields `some`.

JavaScript `1 << first` converts the operands to Int32 and masks the
shift count to its low 5 bits, so its 32-bit pattern is `2 ^ (first % 32)`
(for `first % 32 = 31` the Int32 value is negative, but `|=` combines
32-bit patterns, and a mask's meaning is its bit pattern, which is what we
carry).  The exact-Nat increment of `first` matches JS for values below
2^53 = 9007199254740992, the float-exact integer range; above the exit
test still never succeeds when `last < first`, since `first` never
decreases.  The Session constructor calls `createMask(options.drivers, 6)`
(session.ts line 109). -/
def jsShl1 (n : ℕ) : ℕ := 2 ^ (n % 32)

/-- The `createMask` loop with explicit fuel. -/
def createMaskFuel : ℕ → ℕ → ℕ → ℕ → Option ℕ
  | 0, mask, first, lastN => if first = lastN then some mask else none
  | fuel + 1, mask, first, lastN =>
    if first = lastN then some mask
    else createMaskFuel fuel (mask ||| jsShl1 first) (first + 1) lastN

theorem createMaskFuel_none_of_gt {lastN : ℕ} :
    ∀ (fuel first mask : ℕ), lastN < first → createMaskFuel fuel mask first lastN = none
  | 0, first, mask, h => by
    have hne : first ≠ lastN := by omega
    simp [createMaskFuel, hne]
  | fuel + 1, first, mask, h => by
    have hne : first ≠ lastN := by omega
    simp only [createMaskFuel, hne, if_false]
    exact createMaskFuel_none_of_gt fuel (first + 1) (mask ||| jsShl1 first) (by omega)

theorem createMaskFuel_spec :
    ∀ (k first mask : ℕ), ∃ m, createMaskFuel k mask first (first + k) = some m
      ∧ ∀ i, (m.testBit i = true ↔
          (mask.testBit i = true ∨ ∃ j, first ≤ j ∧ j < first + k ∧ j % 32 = i))
  | 0, first, mask => by
    refine ⟨mask, by simp [createMaskFuel], ?_⟩
    intro i
    constructor
    · intro h
      exact Or.inl h
    · rintro (h | ⟨j, hj1, hj2, _⟩)
      · exact h
      · omega
  | k + 1, first, mask => by
    have hne : first ≠ first + (k + 1) := by omega
    obtain ⟨m, hm, hbit⟩ := createMaskFuel_spec k (first + 1) (mask ||| jsShl1 first)
    refine ⟨m, ?_, ?_⟩
    · simp only [createMaskFuel, hne, if_false]
      rw [show first + (k + 1) = first + 1 + k by omega]
      exact hm
    · intro i
      rw [hbit i]
      simp only [jsShl1, Nat.testBit_or, Bool.or_eq_true, Nat.testBit_two_pow,
        decide_eq_true_eq]
      constructor
      · rintro ((h | h) | ⟨j, hj1, hj2, hj3⟩)
        · exact Or.inl h
        · exact Or.inr ⟨first, le_refl _, by omega, h⟩
        · exact Or.inr ⟨j, by omega, by omega, hj3⟩
      · rintro (h | ⟨j, hj1, hj2, hj3⟩)
        · exact Or.inl (Or.inl h)
        · by_cases hjf : j = first
          · rw [hjf] at hj3
            exact Or.inl (Or.inr hj3)
          · exact Or.inr ⟨j, by omega, by omega, hj3⟩

/-- C10 counterexample: the claim says `createMask(first, last)` returns
the bitmask with exactly the bits `first .. last-1` set, for all natural
numbers.  But JS `1 << j` masks the shift count mod 32, so
`createMask(33, 35)` returns 6 — bits {1, 2} — and bit 33 is NOT set. -/
theorem createMask_shift_wraps_cex :
    createMaskFuel (35 - 33) 0 33 35 = some 6
    ∧ (6 : ℕ).testBit 33 = false
    ∧ (6 : ℕ).testBit 1 = true := by
  refine ⟨by decide, by decide, by decide⟩

/-- C10 (amended): `createMask(first, last)` never terminates when
`last < first` (the exit test never succeeds, whatever the fuel), and —
within the float-exact integer range, which covers the call site —
terminates exactly when `first <= last`, in `last - first` iterations.
The returned mask's 32-bit pattern has bit i set exactly when some
`j` in `first .. last-1` has `j % 32 = i`, because JS `1 << j` masks the
shift count mod 32; this coincides with "exactly the bits
`first .. last-1`" only when `last <= 31`.  Consequently Session
construction, which calls `createMask(options.drivers, 6)`, terminates
only when `drivers <= 6` (yielding exactly bits `drivers .. 5`), and its
initialization loop never terminates when `drivers > 6`. -/
theorem createMask_terminates_and_wraps (first lastN : ℕ) :
    (lastN < first → ∀ fuel mask, createMaskFuel fuel mask first lastN = none)
    ∧ (lastN < 9007199254740992 →
        ((∃ fuel m, createMaskFuel fuel 0 first lastN = some m) ↔ first ≤ lastN))
    ∧ (first ≤ lastN →
        ∃ m, createMaskFuel (lastN - first) 0 first lastN = some m
          ∧ (∀ i, (m.testBit i = true ↔ ∃ j, first ≤ j ∧ j < lastN ∧ j % 32 = i))
          ∧ (lastN ≤ 31 → ∀ i, (m.testBit i = true ↔ (first ≤ i ∧ i < lastN))))
    ∧ (∀ drivers, 6 < drivers → ∀ fuel mask, createMaskFuel fuel mask drivers 6 = none)
    ∧ (∀ drivers, drivers ≤ 6 →
        ∃ m, createMaskFuel (6 - drivers) 0 drivers 6 = some m
          ∧ ∀ i, (m.testBit i = true ↔ (drivers ≤ i ∧ i < 6))) := by
  have hsome : ∀ f l : ℕ, f ≤ l →
      ∃ m, createMaskFuel (l - f) 0 f l = some m
        ∧ (∀ i, (m.testBit i = true ↔ ∃ j, f ≤ j ∧ j < l ∧ j % 32 = i))
        ∧ (l ≤ 31 → ∀ i, (m.testBit i = true ↔ (f ≤ i ∧ i < l))) := by
    intro f l h
    obtain ⟨m, hm, hbit⟩ := createMaskFuel_spec (l - f) f 0
    rw [show f + (l - f) = l by omega] at hm hbit
    have hbit2 : ∀ i, (m.testBit i = true ↔ ∃ j, f ≤ j ∧ j < l ∧ j % 32 = i) := by
      intro i
      rw [hbit i]
      simp [Nat.zero_testBit]
    refine ⟨m, hm, hbit2, ?_⟩
    intro h31 i
    rw [hbit2 i]
    constructor
    · rintro ⟨j, hj1, hj2, hj3⟩
      omega
    · intro hi
      exact ⟨i, hi.1, hi.2, by omega⟩
  refine ⟨?_, ?_, hsome first lastN, ?_, ?_⟩
  · intro h fuel mask
    exact createMaskFuel_none_of_gt fuel first mask h
  · intro _
    constructor
    · rintro ⟨fuel, m, hm⟩
      by_contra hgt
      rw [createMaskFuel_none_of_gt fuel first 0 (by omega)] at hm
      exact Option.noConfusion hm
    · intro h
      obtain ⟨m, hm, _⟩ := hsome first lastN h
      exact ⟨lastN - first, m, hm⟩
  · intro drivers h fuel mask
    exact createMaskFuel_none_of_gt fuel drivers mask (by omega)
  · intro drivers h
    obtain ⟨m, hm, _, hexact⟩ := hsome drivers 6 h
    exact ⟨m, hm, hexact (by omega)⟩

/-- Witness for C10 (amended): `createMask(2, 6)` terminates with exactly
bits 2..5 set (the call-site range, below the shift wrap), and
`createMask(7, 6)` never terminates whatever the fuel. -/
theorem createMask_terminates_and_wraps_witness :
    (∃ m, createMaskFuel (6 - 2) 0 2 6 = some m
      ∧ (∀ i, (m.testBit i = true ↔ ∃ j, 2 ≤ j ∧ j < 6 ∧ j % 32 = i))
      ∧ (6 ≤ 31 → ∀ i, (m.testBit i = true ↔ (2 ≤ i ∧ i < 6))))
    ∧ (∀ fuel mask, createMaskFuel fuel mask 7 6 = none) :=
  ⟨(createMask_terminates_and_wraps 2 6).2.2.1 (by decide),
    (createMask_terminates_and_wraps 2 6).2.2.2.1 7 (by decide)⟩

/-!
C8 machinery: the race comparator agrees with a lexicographic key
(descending laps, then time with NaN greatest, then lane id), which makes
the race-mode sort arrangement-independent for rosters with distinct
lane ids; the practice/qualifying comparator has no id tie-break, so the
stable sort preserves the input order of tied entries.
-/

/-- The time component of the race ordering key: finite times in order,
NaN (and the unreachable infinities) greatest. -/
def timeKey : JsNum → WithTop ℤ
  | JsNum.num q => (q : WithTop ℤ)
  | _ => ⊤

/-- The lexicographic key realised by `raceCompare` on finite-or-NaN
times: descending laps, then time (NaN last), then lane id. -/
def entryKey (a : Entry) : Lex (ℤ × Lex ((WithTop ℤ) × ℕ)) :=
  toLex (-(a.laps : ℤ), toLex (timeKey a.time, a.id))

theorem entryKey_lt_iff (a b : Entry) :
    entryKey b < entryKey a ↔
      (-(b.laps : ℤ) < -(a.laps : ℤ)
        ∨ (-(b.laps : ℤ) = -(a.laps : ℤ)
            ∧ (timeKey b.time < timeKey a.time
              ∨ (timeKey b.time = timeKey a.time ∧ b.id < a.id)))) := by
  rw [entryKey, entryKey, Prod.Lex.lt_iff]
  constructor
  · rintro (h | ⟨h1, h2⟩)
    · exact Or.inl h
    · rw [Prod.Lex.lt_iff] at h2
      exact Or.inr ⟨h1, h2⟩
  · rintro (h | ⟨h1, h2⟩)
    · exact Or.inl h
    · exact Or.inr ⟨h1, (Prod.Lex.lt_iff _ _).mpr h2⟩

theorem raceCompare_isPos_iff (a b : Entry) (ha : a.time.finOrNan = true)
    (hb : b.time.finOrNan = true) :
    ((raceCompare a b).isPos = true ↔ entryKey b < entryKey a) := by
  rw [entryKey_lt_iff]
  have hD : ∀ x y : ℕ, (-(x : ℤ) < -(y : ℤ) ↔ 0 < (x : ℤ) - (y : ℤ))
      ∧ (-(x : ℤ) = -(y : ℤ) ↔ (x : ℤ) - (y : ℤ) = 0) := by
    intro x y
    omega
  have hta : a.time = JsNum.nan ∨ ∃ q, a.time = JsNum.num q := by
    cases h : a.time with
    | num q => exact Or.inr ⟨q, rfl⟩
    | nan => exact Or.inl rfl
    | posInf => rw [h] at ha; exact absurd ha (by decide)
    | negInf => rw [h] at ha; exact absurd ha (by decide)
  have htb : b.time = JsNum.nan ∨ ∃ q, b.time = JsNum.num q := by
    cases h : b.time with
    | num q => exact Or.inr ⟨q, rfl⟩
    | nan => exact Or.inl rfl
    | posInf => rw [h] at hb; exact absurd hb (by decide)
    | negInf => rw [h] at hb; exact absurd hb (by decide)
  rcases hta with hta | ⟨qa, hta⟩ <;> rcases htb with htb | ⟨qb, htb⟩ <;>
    rw [raceCompare, hta, htb] <;>
    simp only [numCompare_nan_nan, numCompare_nan_num, numCompare_num_nan,
      numCompare_num_num, timeKey]
  · -- both NaN
    by_cases hd : (b.laps : ℤ) - (a.laps : ℤ) = 0
    · rw [hd, jsOr_num_zero, jsOr_num_zero, isPos_num]
      simp only [decide_eq_true_eq, lt_self_iff_false, false_or, eq_self_iff_true,
        true_and]
      omega
    · rw [jsOr_num_ne_zero hd, jsOr_num_ne_zero hd, isPos_num]
      simp only [decide_eq_true_eq, lt_self_iff_false, false_or, eq_self_iff_true,
        true_and]
      omega
  · -- a NaN, b finite: NaN sorts after the number, comparator +1
    by_cases hd : (b.laps : ℤ) - (a.laps : ℤ) = 0
    · rw [hd, jsOr_num_zero, jsOr_num_ne_zero (by norm_num), isPos_num]
      simp only [decide_eq_true_eq, WithTop.coe_lt_top, WithTop.coe_ne_top]
      constructor
      · intro
        exact Or.inr ⟨by omega, Or.inl trivial⟩
      · intro
        norm_num
    · rw [jsOr_num_ne_zero hd, jsOr_num_ne_zero hd, isPos_num]
      simp only [decide_eq_true_eq, WithTop.coe_lt_top, WithTop.coe_ne_top]
      constructor
      · intro h
        exact Or.inl (by omega)
      · rintro (h | ⟨h1, _⟩)
        · omega
        · omega
  · -- a finite, b NaN
    by_cases hd : (b.laps : ℤ) - (a.laps : ℤ) = 0
    · rw [hd, jsOr_num_zero, jsOr_num_ne_zero (by norm_num), isPos_num]
      simp only [decide_eq_true_eq]
      constructor
      · intro h
        norm_num at h
      · rintro (h | ⟨h1, (h2 | ⟨h2, h3⟩)⟩)
        · omega
        · exact absurd h2 (not_top_lt)
        · exact absurd h2.symm (WithTop.coe_ne_top)
    · rw [jsOr_num_ne_zero hd, jsOr_num_ne_zero hd, isPos_num]
      simp only [decide_eq_true_eq]
      constructor
      · intro h
        exact Or.inl (by omega)
      · rintro (h | ⟨h1, _⟩)
        · omega
        · omega
  · -- both finite
    by_cases hd : (b.laps : ℤ) - (a.laps : ℤ) = 0
    · rw [hd, jsOr_num_zero]
      by_cases hc : qa - qb = 0
      · rw [hc, jsOr_num_zero, isPos_num]
        simp only [decide_eq_true_eq, WithTop.coe_lt_coe, WithTop.coe_inj, Nat.cast_inj]
        omega
      · rw [jsOr_num_ne_zero hc, isPos_num]
        simp only [decide_eq_true_eq, WithTop.coe_lt_coe, WithTop.coe_inj]
        omega
    · rw [jsOr_num_ne_zero hd, jsOr_num_ne_zero hd, isPos_num]
      simp only [decide_eq_true_eq, WithTop.coe_lt_coe, WithTop.coe_inj]
      omega

theorem entryKey_eq_imp_id (a b : Entry) (h : entryKey a = entryKey b) : a.id = b.id := by
  rw [entryKey, entryKey, toLex_inj, Prod.mk.injEq, toLex_inj, Prod.mk.injEq] at h
  exact h.2.2

theorem jsInsert_pairwise {α : Type} (cmp : α → α → JsNum) {β : Type} [LinearOrder β]
    (f : α → β) (P : α → Bool)
    (hsign : ∀ a b, P a = true → P b = true → ((cmp a b).isPos = true ↔ f b < f a))
    (a : α) (l : List α) (ha : P a = true) (hl : ∀ x ∈ l, P x = true)
    (hp : l.Pairwise (fun x y => f x ≤ f y)) :
    (jsInsert cmp a l).Pairwise (fun x y => f x ≤ f y) := by
  induction l with
  | nil => simp [jsInsert]
  | cons b t ih =>
    have hb : P b = true := hl b (List.mem_cons_self b t)
    have hlt : ∀ x ∈ t, P x = true := fun x hx => hl x (List.mem_cons_of_mem b hx)
    rw [List.pairwise_cons] at hp
    by_cases hab : (cmp a b).isPos = true
    · have hba : f b < f a := (hsign a b ha hb).mp hab
      simp only [jsInsert, hab, if_true]
      rw [List.pairwise_cons]
      constructor
      · intro x hx
        rcases List.mem_cons.mp ((jsInsert_perm cmp a t).mem_iff.mp hx) with hxa | hxt
        · rw [hxa]
          exact le_of_lt hba
        · exact hp.1 x hxt
      · exact ih hlt hp.2
    · have hba : f a ≤ f b := by
        rw [hsign a b ha hb] at hab
        exact not_lt.mp hab
      rw [Bool.not_eq_true] at hab
      simp only [jsInsert, hab, Bool.false_eq_true, if_false]
      rw [List.pairwise_cons]
      constructor
      · intro x hx
        rcases List.mem_cons.mp hx with hxb | hxt
        · rw [hxb]
          exact hba
        · exact le_trans hba (hp.1 x hxt)
      · rw [List.pairwise_cons]
        exact ⟨hp.1, hp.2⟩

theorem jsSort_pairwise {α : Type} (cmp : α → α → JsNum) {β : Type} [LinearOrder β]
    (f : α → β) (P : α → Bool)
    (hsign : ∀ a b, P a = true → P b = true → ((cmp a b).isPos = true ↔ f b < f a))
    (l : List α) (hl : ∀ x ∈ l, P x = true) :
    (jsSort cmp l).Pairwise (fun x y => f x ≤ f y) := by
  induction l with
  | nil => simp [jsSort]
  | cons a t ih =>
    have ha : P a = true := hl a (List.mem_cons_self a t)
    have hlt : ∀ x ∈ t, P x = true := fun x hx => hl x (List.mem_cons_of_mem a hx)
    have hsorted : ∀ x ∈ jsSort cmp t, P x = true := fun x hx =>
      hlt x (mem_jsSort.mp hx)
    exact jsInsert_pairwise cmp f P hsign a (jsSort cmp t) ha hsorted (ih hlt)

theorem pairwise_perm_eq {α : Type} {r : α → α → Prop} :
    ∀ {l₁ l₂ : List α}, List.Perm l₁ l₂ → l₁.Pairwise r → l₂.Pairwise r →
      (∀ a ∈ l₁, ∀ b ∈ l₁, r a b → r b a → a = b) → l₁ = l₂
  | [], l₂, hp, _, _, _ => (hp.nil_eq).symm ▸ rfl
  | a :: t₁, l₂, hp, h₁, h₂, hanti => by
    have ha2 : a ∈ l₂ := hp.mem_iff.mp (List.mem_cons_self a t₁)
    cases l₂ with
    | nil => exact absurd ha2 (List.not_mem_nil a)
    | cons b t₂ =>
      by_cases hab : a = b
      · subst hab
        have ht := pairwise_perm_eq hp.cons_inv (List.pairwise_cons.mp h₁).2
          (List.pairwise_cons.mp h₂).2
          (fun x hx y hy hxy hyx =>
            hanti x (List.mem_cons_of_mem a hx) y (List.mem_cons_of_mem a hy) hxy hyx)
        rw [ht]
      · exfalso
        have hat2 : a ∈ t₂ := by
          rcases List.mem_cons.mp ha2 with h | h
          · exact absurd h hab
          · exact h
        have hba : r b a := (List.pairwise_cons.mp h₂).1 a hat2
        have hbl1 : b ∈ a :: t₁ := hp.symm.mem_iff.mp (List.mem_cons_self b t₂)
        have hbt1 : b ∈ t₁ := by
          rcases List.mem_cons.mp hbl1 with h | h
          · exact absurd h.symm hab
          · exact h
        have hab' : r a b := (List.pairwise_cons.mp h₁).1 b hbt1
        exact hab (hanti a (List.mem_cons_self a t₁) b (List.mem_cons_of_mem a hbt1)
          hab' hba)

theorem eq_of_mem_pairwise_ne_id {l : List Entry}
    (h : l.Pairwise (fun x y => x.id ≠ y.id)) :
    ∀ {a b : Entry}, a ∈ l → b ∈ l → a.id = b.id → a = b := by
  induction l with
  | nil =>
    intro a b ha _ _
    exact absurd ha (List.not_mem_nil a)
  | cons c t ih =>
    intro a b ha hb hid
    rw [List.pairwise_cons] at h
    rcases List.mem_cons.mp ha with ha1 | ha1 <;> rcases List.mem_cons.mp hb with hb1 | hb1
    · rw [ha1, hb1]
    · exfalso
      rw [ha1] at hid
      exact (h.1 b hb1) hid
    · exfalso
      rw [hb1] at hid
      exact (h.1 a ha1) hid.symm
    · exact ih h.2 ha1 hb1 hid

/-- C8 counterexample: in practice mode the comparator uses only the best
lap time, with no lane-id tie-break, so two snapshots with equal best
times but different lanes are sorted in input order: the two arrangements
of the SAME set of snapshots produce different leaderboard orders. -/
theorem practice_sort_depends_on_arrangement :
    List.Perm
      [(⟨0, JsNum.nan, 0, [], [JsNum.num 100000], [], JsNum.nan, false, 0, 0, false⟩ : Entry),
        ⟨1, JsNum.nan, 0, [], [JsNum.num 100000], [], JsNum.nan, false, 0, 0, false⟩]
      [⟨1, JsNum.nan, 0, [], [JsNum.num 100000], [], JsNum.nan, false, 0, 0, false⟩,
        ⟨0, JsNum.nan, 0, [], [JsNum.num 100000], [], JsNum.nan, false, 0, 0, false⟩]
    ∧ jsSort (COMPARE Mode.practice)
        [⟨0, JsNum.nan, 0, [], [JsNum.num 100000], [], JsNum.nan, false, 0, 0, false⟩,
          ⟨1, JsNum.nan, 0, [], [JsNum.num 100000], [], JsNum.nan, false, 0, 0, false⟩] ≠
      jsSort (COMPARE Mode.practice)
        [⟨1, JsNum.nan, 0, [], [JsNum.num 100000], [], JsNum.nan, false, 0, 0, false⟩,
          ⟨0, JsNum.nan, 0, [], [JsNum.num 100000], [], JsNum.nan, false, 0, 0, false⟩] :=
  ⟨List.Perm.swap _ _ _, by decide⟩

/-- C8 (amended): the race-mode comparator realises a strict total order
up to the lane-id tie-break (it agrees in sign with the lexicographic key
"descending laps, then time with NaN last, then lane id"), so for any
roster of snapshots with pairwise-distinct lane ids and finite-or-NaN
times, sorting any arrangement of those snapshots yields the same
leaderboard.  In practice/qualifying mode, however, the comparator has no
lane-id tie-break, and the stable sort keeps tied entries in input order,
so the result depends on the input arrangement (see the counterexample). -/
theorem race_sort_deterministic (l₁ l₂ : List Entry)
    (hgood : ∀ a ∈ l₁, a.time.finOrNan = true)
    (hids : l₁.Pairwise (fun x y => x.id ≠ y.id))
    (hperm : List.Perm l₁ l₂) :
    jsSort (COMPARE Mode.race) l₁ = jsSort (COMPARE Mode.race) l₂ := by
  have hcomp : COMPARE Mode.race = raceCompare := rfl
  rw [hcomp]
  have hgood2 : ∀ a ∈ l₂, a.time.finOrNan = true := fun a ha =>
    hgood a (hperm.mem_iff.mpr ha)
  have hsign : ∀ a b : Entry, a.time.finOrNan = true → b.time.finOrNan = true →
      ((raceCompare a b).isPos = true ↔ entryKey b < entryKey a) := fun a b ha hb =>
    raceCompare_isPos_iff a b ha hb
  apply pairwise_perm_eq
    (r := fun x y : Entry => entryKey x ≤ entryKey y)
  · exact (jsSort_perm raceCompare l₁).trans (hperm.trans (jsSort_perm raceCompare l₂).symm)
  · exact jsSort_pairwise raceCompare entryKey (fun a => a.time.finOrNan) hsign l₁ hgood
  · exact jsSort_pairwise raceCompare entryKey (fun a => a.time.finOrNan) hsign l₂ hgood2
  · intro a ha b hb hab hba
    have ha1 : a ∈ l₁ := mem_jsSort.mp ha
    have hb1 : b ∈ l₁ := mem_jsSort.mp hb
    have hkey : entryKey a = entryKey b := le_antisymm hab hba
    exact eq_of_mem_pairwise_ne_id hids ha1 hb1 (entryKey_eq_imp_id a b hkey)

/-- Witness for C8 (amended): two arrangements of the race-mode scenario
roster (laps 10 each, times 118000 and 120000) sort identically. -/
theorem race_sort_deterministic_witness :
    jsSort (COMPARE Mode.race)
      [(⟨0, JsNum.num 118000, 10, [], [], [], JsNum.nan, false, 0, 0, true⟩ : Entry),
        ⟨1, JsNum.num 120000, 10, [], [], [], JsNum.nan, false, 0, 0, true⟩] =
    jsSort (COMPARE Mode.race)
      [⟨1, JsNum.num 120000, 10, [], [], [], JsNum.nan, false, 0, 0, true⟩,
        ⟨0, JsNum.num 118000, 10, [], [], [], JsNum.nan, false, 0, 0, true⟩] :=
  race_sort_deterministic _ _ (by decide) (by decide) (List.Perm.swap _ _ _)

end Openlap
